import Mathlib

/-!
Verification of the `bitcoin_r1cs` crate against its specification.

The development shallowly embeds the crate's data model and operations:

* field elements of a prime field `F` are natural numbers reduced modulo the
  modulus `p`; `F::MODULUS_BIT_SIZE` is carried alongside `p` in `FieldParams`;
* byte strings (`[u8; N]`, `Script`, sha256 digests) are `List Nat` with every
  entry below 256;
* constraint synthesis is modelled at the assignment level: every gadget is
  evaluated on the honest witness assignment that synthesis itself computes, so
  a circuit is satisfied exactly when all enforced boolean constraints hold;
* the external `chain_gang` sighash function and the in-circuit sighash of
  `TxVar` (not part of this crate's sources) are a parameter `SighashFn`,
  per the spec's collaborator contract (spec section 6): a pure 32-byte digest of
  (transaction, input index, previous locking script, previous amount, flag).
-/

namespace BitcoinR1cs

/-! ## Bytes and little-endian encodings -/

/-- Little-endian interpretation of a byte string as a natural number.
Mirrors arkworks `from_le_bytes_mod_order` before the final modular reduction. -/
def leBytesToNat (l : List Nat) : Nat :=
  l.foldr (fun b acc => b + 256 * acc) 0

/-- The first `n` little-endian base-256 digits of `v`.
Mirrors taking a prefix of arkworks `to_bytes_le()`. -/
def natLeBytes : Nat → Nat → List Nat
  | 0, _ => []
  | n + 1, v => v % 256 :: natLeBytes n (v / 256)

/-- A well-formed byte string: every entry is a byte value. -/
def BytesWF (l : List Nat) : Prop := ∀ b ∈ l, b < 256

instance : DecidablePred BytesWF := fun l =>
  inferInstanceAs (Decidable (∀ b ∈ l, b < 256))

/-- A well-formed 32-byte digest, the shape of a `TransactionIntegrityTag`. -/
def Digest32 (l : List Nat) : Prop := l.length = 32 ∧ BytesWF l

instance : DecidablePred Digest32 := fun l =>
  inferInstanceAs (Decidable (l.length = 32 ∧ BytesWF l))

/-! ## Prime-field parameters

Arkworks' `PrimeField` exposes the modulus and `MODULUS_BIT_SIZE` (the number
of bits of the modulus).  We carry both, linked by the defining inequalities
`2 ^ (bitSize - 1) ≤ p < 2 ^ bitSize`. -/

structure FieldParams where
  p : Nat
  bitSize : Nat
  bitSize_pos : 0 < bitSize
  lower : 2 ^ (bitSize - 1) ≤ p
  upper : p < 2 ^ bitSize

/-- `F::from_le_bytes_mod_order`: little-endian bytes reduced modulo `p`. -/
def from_le_bytes_mod_order (fp : FieldParams) (l : List Nat) : Nat :=
  leBytesToNat l % fp.p

/-! ## `transaction_integrity_gadget/utils.rs` -/

/-- Embeds `get_chunk_size` from `src/transaction_integrity_gadget/utils.rs`:
the chunk size in bytes used to split a 32-byte tag into field elements,
selected by comparing `F::MODULUS_BIT_SIZE` against 256, 128, 64, 32, 16. -/
def get_chunk_size (fp : FieldParams) : Nat :=
  if fp.bitSize > 256 then 32
  else if fp.bitSize > 128 then 16
  else if fp.bitSize > 64 then 8
  else if fp.bitSize > 32 then 4
  else if fp.bitSize > 16 then 2
  else 1

/-- `slice::chunks_exact` with chunk size `c`, with an explicit fuel argument
(structural recursion so that concrete instances evaluate by `decide`).
The trailing remainder shorter than `c` is discarded, as in Rust. -/
def chunksExactAux (c : Nat) : Nat → List Nat → List (List Nat)
  | 0, _ => []
  | fuel + 1, l =>
    if 0 < c ∧ c ≤ l.length then l.take c :: chunksExactAux c fuel (l.drop c)
    else []

/-- `slice::chunks_exact(c)` on a byte string. -/
def chunksExact (c : Nat) (l : List Nat) : List (List Nat) :=
  chunksExactAux c l.length l

/-- Embeds `to_fp_chunks` from `src/transaction_integrity_gadget/utils.rs`:
split `data` into chunks of `get_chunk_size` bytes and map each chunk through
`F::from_le_bytes_mod_order`. -/
def to_fp_chunks (fp : FieldParams) (data : List Nat) : List Nat :=
  (chunksExact (get_chunk_size fp) data).map (fun bytes => from_le_bytes_mod_order fp bytes)

/-- Translation of the specification sentence for claim C3, for comparison with
`get_chunk_size`: the largest byte count among {32,16,8,4,2,1} whose bit-width
is strictly less than the modulus bit size (the list is descending, so `find?`
returns the largest such count, and `none` when no count qualifies). -/
def chunk_size_spec (bitSize : Nat) : Option Nat :=
  [32, 16, 8, 4, 2, 1].find? (fun c => 8 * c < bitSize)

/-! ## Transactions, scripts and the sighash collaborator contract

`TxVar`, `ScriptVar` and the sighash computation live outside the provided
sources (`crate::constraints::tx`, `crate::constraints::script`, `chain_gang`);
the spec treats them as external collaborators (spec section 6). -/

/-- A transaction output: amount in satoshis and a locking script. -/
structure TxOutData where
  satoshis : Nat
  lockScript : List Nat
  deriving DecidableEq

/-- A transaction input: previous outpoint, unlocking script, sequence. -/
structure TxInData where
  prevOutHash : List Nat
  prevOutIndex : Nat
  unlockScript : List Nat
  seqNo : Nat
  deriving DecidableEq

/-- A Bitcoin transaction, mirroring `chain_gang::messages::Tx`. -/
structure TxData where
  version : Nat
  inputs : List TxInData
  outputs : List TxOutData
  lockTime : Nat
  deriving DecidableEq

/-- The transaction-shape configuration `TxVarConfig`. -/
structure TxVarConfig where
  N_INPUTS : Nat
  N_OUTPUTS : Nat
  LEN_UNLOCK_SCRIPTS : List Nat
  LEN_LOCK_SCRIPTS : List Nat

/-- The configuration `TransactionIntegrityConfig` from
`src/transaction_integrity_gadget/mod.rs`. -/
structure TIConfig where
  LEN_PREV_LOCK_SCRIPT : Nat
  N_INPUT : Nat
  SIGHASH_FLAG : Nat

/-- The sighash cache `SigHashCache` / `SigHashCacheVar`
(shape from `src/constraints/sighash_cache.rs`): three independently optional
sub-digests. -/
structure CacheData where
  hash_prevouts : Option (List Nat)
  hash_sequence : Option (List Nat)
  hash_outputs : Option (List Nat)
  deriving DecidableEq

/-- The empty cache, `SigHashCache::new()`. -/
def emptyCache : CacheData := ⟨none, none, none⟩

/-- Modelled from the spec: the external sighash operation of `chain_gang`
(native) and of `TxVar` (in-circuit), which are not under `src/`.  Per the
collaborator contract (spec sections 4.3, 4.4, 6) it is a pure 32-byte digest of
the transaction, the configured input index, the previous locking script, the
previous amount and the sighash flag; the sighash cache only saves constraints
and never changes the digest, so it does not appear as an argument. -/
def SighashFn : Type :=
  TxData → Nat → List Nat → Nat → Nat → List Nat

/-! ## `transaction_integrity_gadget/mod.rs`: the native scheme -/

/-- The native integrity tag `TransactionIntegrityTag`: 32 bytes. -/
def default_tag : List Nat := List.replicate 32 0

/-- The `From<TransactionIntegrityTag> for Vec<F>` conversion from
`src/transaction_integrity_gadget/mod.rs`: a single field element,
`F::from_le_bytes_mod_order` of all 32 tag bytes. -/
def tag_into_vecF (fp : FieldParams) (tag : List Nat) : List Nat :=
  [from_le_bytes_mod_order fp tag]

/-- Embeds `TransactionIntegrityScheme::commit`
(`src/transaction_integrity_gadget/mod.rs`): assert that the previous locking
script has the configured length (`none` models the `assert_eq!` panic), then
return the sighash digest as the tag.  The cache argument is value-transparent,
matching the spec's contract for the external sighash. -/
def TransactionIntegrityScheme.commit (cfg : TIConfig) (h : SighashFn)
    (tx : TxData) (prevLockScript : List Nat) (prevAmount : Nat)
    (_cache : CacheData) : Option (List Nat) :=
  if prevLockScript.length = cfg.LEN_PREV_LOCK_SCRIPT then
    some (h tx cfg.N_INPUT prevLockScript prevAmount cfg.SIGHASH_FLAG)
  else none

/-- Embeds `TransactionIntegrityScheme::verify`: recompute `commit` and compare
with the tag by value (`PartialEq` on the 32 bytes); a panic in `commit`
propagates (`none`). -/
def TransactionIntegrityScheme.verify (cfg : TIConfig) (h : SighashFn)
    (tx : TxData) (prevLockScript : List Nat) (prevAmount : Nat)
    (cache : CacheData) (tag : List Nat) : Option Bool :=
  (TransactionIntegrityScheme.commit cfg h tx prevLockScript prevAmount cache).map
    (fun committed => committed == tag)

/-! ## `transaction_integrity_gadget/constraints.rs`: the in-circuit gadget -/

/-- The values of the field elements allocated for a tag by
`TransactionIntegrityTagVar::new_variable`: `to_fp_chunks` of the 32 tag
bytes, one `FpVar` per chunk. -/
def tagVar_alloc (fp : FieldParams) (tag : List Nat) : List Nat :=
  to_fp_chunks fp tag

/-- The values of `TransactionIntegrityTagVar::to_bytes`: for each `FpVar`
value, the first `get_chunk_size` little-endian bytes of its representation
(`fp.to_bytes_le()?[..chunk_size]`). -/
def tagVar_to_bytes (fp : FieldParams) (vals : List Nat) : List (List Nat) :=
  vals.map (fun v => natLeBytes (get_chunk_size fp) v)

/-- Embeds `TransactionIntegrityGadget::verify`
(`src/transaction_integrity_gadget/constraints.rs`) at the assignment level:
assert the configured previous-locking-script length (`none` models the
`assert_eq!` panic); recompute the sighash digest in-circuit; compare the tag's
byte chunks against `chunks_exact` of the digest; `kary_and` the chunk
equalities and enforce the conjunction, so the returned boolean is exactly
whether the constraint system is satisfied. -/
def TransactionIntegrityGadget.verify (fp : FieldParams) (cfg : TIConfig)
    (h : SighashFn) (tx : TxData) (prevLockScript : List Nat)
    (prevAmount : Nat) (_cache : CacheData) (tagVals : List Nat) : Option Bool :=
  if prevLockScript.length = cfg.LEN_PREV_LOCK_SCRIPT then
    let computed := h tx cfg.N_INPUT prevLockScript prevAmount cfg.SIGHASH_FLAG
    let is_valid_tag :=
      ((tagVar_to_bytes fp tagVals).zip
        (chunksExact (get_chunk_size fp) computed)).map
        (fun pair => pair.1 == pair.2)
    some (is_valid_tag.all id)
  else none

/-- The whole integrity circuit on a natively supplied tag: allocate the tag via
`TransactionIntegrityTagVar::new_variable`, then run the gadget's `verify`;
`some b` means constraint generation succeeded and the system is satisfied
exactly when `b` is true. -/
def ti_circuit_satisfied (fp : FieldParams) (cfg : TIConfig) (h : SighashFn)
    (tx : TxData) (prevLockScript : List Nat) (prevAmount : Nat)
    (cache : CacheData) (tag : List Nat) : Option Bool :=
  TransactionIntegrityGadget.verify fp cfg h tx prevLockScript prevAmount cache
    (tagVar_alloc fp tag)

/-! ## `reftx.rs`: the RefTx circuit -/

/-- Modelled from the spec: `default_tx` (`crate::util`, not under `src/`),
"a zero-shaped transaction matching the configuration" (spec section 4.5): the
configured number of inputs and outputs, zero-filled scripts of the configured
lengths, and all numeric fields zero. -/
def default_tx (cfg : TxVarConfig) : TxData :=
  { version := 0
    inputs := cfg.LEN_UNLOCK_SCRIPTS.map (fun len =>
      { prevOutHash := List.replicate 32 0
        prevOutIndex := 0
        unlockScript := List.replicate len 0
        seqNo := 0 })
    outputs := cfg.LEN_LOCK_SCRIPTS.map (fun len =>
      { satoshis := 0, lockScript := List.replicate len 0 })
    lockTime := 0 }

/-- The data a concrete predicate `B` contributes to the RefTx circuit:
the instance values its locking/unlocking `Var` allocations push in input mode,
the values its witness allocation pushes, and the native `Into<Vec<F>>`
conversions of the locking and unlocking data. -/
structure PredicateSlots where
  lockVec : List Nat
  unlockVec : List Nat
  lockAllocVals : List Nat
  unlockAllocVals : List Nat
  witnessAllocVals : List Nat

/-- Embeds `RefTxCircuit::public_input` (`src/reftx.rs`): the `Into<Vec<F>>`
conversion of the locking data, then the tag (defaulted when absent) through
`From<TransactionIntegrityTag> for Vec<F>`, then the unlocking data. -/
def RefTxCircuit.public_input (fp : FieldParams) (d : PredicateSlots)
    (integrity_tag : Option (List Nat)) : List Nat :=
  d.lockVec ++ tag_into_vecF fp (integrity_tag.getD default_tag) ++ d.unlockVec

/-- The sequence of field-element values assigned to public inputs during
`RefTxCircuit::generate_constraints` (`src/reftx.rs`): the locking-data
allocation, then the chunked tag allocation of
`TransactionIntegrityTagVar::new_input`, then the unlocking-data allocation. -/
def RefTxCircuit.allocated_public_input (fp : FieldParams) (d : PredicateSlots)
    (integrity_tag : Option (List Nat)) : List Nat :=
  d.lockAllocVals ++ tagVar_alloc fp (integrity_tag.getD default_tag)
    ++ d.unlockAllocVals

/-- Allocation mode of a circuit variable. -/
inductive Mode where
  | input
  | witness
  deriving DecidableEq

/-- One allocation step of `RefTxCircuit::generate_constraints`: a mode and the
assigned values. -/
structure Alloc where
  mode : Mode
  vals : List Nat
  deriving DecidableEq

/-- The allocation trace of `RefTxCircuit::generate_constraints`
(`src/reftx.rs`), in program order.  `txAlloc`, `scriptAlloc`, `amountAlloc`
and `cacheAlloc` are the value serialisations of the external `TxVar`,
`ScriptVar`, `UInt64` and `SigHashCacheVar` witness allocations (collaborator
contract, spec section 6).  Each optional native input is defaulted exactly as in
the source: the tag with `unwrap_or_default()`, the transaction with
`default_tx::<P>()`, the previous locking script with
`Script(vec![0; P::LEN_PREV_LOCK_SCRIPT])`, the previous amount with `0` and
the cache with `unwrap_or_default()`. -/
def RefTxCircuit.generate_constraints_allocs (fp : FieldParams)
    (cfg : TxVarConfig) (ticfg : TIConfig)
    (txAlloc : TxData → List Nat) (scriptAlloc : List Nat → List Nat)
    (amountAlloc : Nat → List Nat) (cacheAlloc : CacheData → List Nat)
    (d : PredicateSlots)
    (integrity_tag : Option (List Nat)) (spending_data : Option TxData)
    (prev_lock_script : Option (List Nat)) (prev_amount : Option Nat)
    (sighash_cache : Option CacheData) : List Alloc :=
  [ ⟨.input, d.lockAllocVals⟩,
    ⟨.input, tagVar_alloc fp (integrity_tag.getD default_tag)⟩,
    ⟨.input, d.unlockAllocVals⟩,
    ⟨.witness, d.witnessAllocVals⟩,
    ⟨.witness, txAlloc (spending_data.getD (default_tx cfg))⟩,
    ⟨.witness, scriptAlloc
      (prev_lock_script.getD (List.replicate ticfg.LEN_PREV_LOCK_SCRIPT 0))⟩,
    ⟨.witness, amountAlloc (prev_amount.getD 0)⟩,
    ⟨.witness, cacheAlloc (sighash_cache.getD emptyCache)⟩ ]

/-! ## `macros.rs`: the predicate combination algebra

A sub-predicate of a combination is modelled at the assignment level by the
boolean its `generate_constraints` returns on the honest assignment, the
number of constraints and witness wires it allocates, and the truth values of
any constraints it *enforces* (the `BitcoinPredicate` contract, spec section 4.1,
requires this list to be empty: `generate_constraints` returns its boolean
without asserting it).  `τ` is the type of the allocated transaction variable
and `α` the type of the combined data assignment. -/
structure SubPredicate (τ : Type) (α : Type) where
  val : τ → α → Bool
  constraintCount : τ → α → Nat
  wireCount : τ → α → Nat
  enforced : τ → α → List Bool

/-- The booleans collected by the combined `generate_constraints`
(`_combine_predicates` in `src/macros.rs`): every sub-predicate's
`generate_constraints` is evaluated, in declaration order, against the same
allocated transaction `t`. -/
def combined_generate_bools (subs : List (SubPredicate τ α)) (t : τ) (a : α) :
    List Bool :=
  subs.map (fun s => s.val t a)

/-- The boolean returned by the combined `generate_constraints`: `kary_and` of
all collected booleans in AND mode (`$logical_condition = true`), `kary_or` in
OR mode. -/
def combined_generate_val (isAnd : Bool) (subs : List (SubPredicate τ α))
    (t : τ) (a : α) : Bool :=
  if isAnd then (combined_generate_bools subs t a).all id
  else (combined_generate_bools subs t a).any id

/-- Constraints allocated by the `kary_and`/`kary_or` fold over `n` booleans:
`n - 1` binary gates, one constraint each (`ark_r1cs_std` boolean fold;
external collaborator).  Only its independence from the data matters below. -/
def karyFoldConstraints (n : Nat) : Nat := n - 1

/-- Witness wires allocated by the `kary_and`/`kary_or` fold over `n`
booleans: one per binary gate. -/
def karyFoldWires (n : Nat) : Nat := n - 1

/-- Total constraints allocated by the combined `generate_constraints`:
every sub-predicate's constraints (none skipped) plus the boolean fold. -/
def combined_constraint_count (subs : List (SubPredicate τ α)) (t : τ)
    (a : α) : Nat :=
  (subs.map (fun s => s.constraintCount t a)).sum
    + karyFoldConstraints subs.length

/-- Total witness wires allocated by the combined `generate_constraints`. -/
def combined_wire_count (subs : List (SubPredicate τ α)) (t : τ) (a : α) :
    Nat :=
  (subs.map (fun s => s.wireCount t a)).sum + karyFoldWires subs.length

/-- Whether the constraint system is satisfied after the combined predicate's
`enforce_constraints` (`src/traits.rs`: `generate_constraints` followed by
`enforce_equal(&Boolean::TRUE)`): every constraint enforced by a sub-predicate
holds, and the combined boolean is true. -/
def combined_enforce_satisfied (isAnd : Bool)
    (subs : List (SubPredicate τ α)) (t : τ) (a : α) : Bool :=
  ((subs.map (fun s => (s.enforced t a).all id)).all id)
    && combined_generate_val isAnd subs t a

/-- The `From<$combined_struct> for Vec<F>` conversion generated by
`combine_bp_structs` (`src/macros.rs`): start from an empty vector and
`extend_from_slice` with each slot's own `Vec<F>` conversion, in declaration
order of the sub-predicates. -/
def combined_into_vecF (slots : List (List Nat)) : List Nat :=
  slots.foldl (fun out slot => out ++ slot) []

/-! ## `bitcoin_predicates/fixed_lock_script.rs` and
`bitcoin_predicates/fixed_sub_lock_script.rs` -/

/-- The abort conditions of constraint generation: a failed `assert!` /
`assert_eq!`, or an out-of-bounds slice or index access. -/
inductive PanicKind where
  | assertionFailed
  | indexOutOfBounds
  deriving DecidableEq

/-- Embeds `FixedLockScript::generate_constraints`
(`src/bitcoin_predicates/fixed_lock_script.rs`): assert
`index <= outputs.len()` (non-strict), then access `outputs[index]` (an
out-of-bounds panic when `index = outputs.len()`), then return the boolean of
`is_eq` between that output's locking script and the constant target script.
`ScriptVar` equality is modelled from the spec's collaborator contract (spec
section 6, "equality-comparable byte-sequence variable") as byte-sequence
equality. -/
def FixedLockScript.generate_constraints (lock_script : List Nat)
    (index : Nat) (tx : TxData) : Except PanicKind Bool :=
  if index ≤ tx.outputs.length then
    match tx.outputs.get? index with
    | some out => .ok (out.lockScript == lock_script)
    | none => .error .indexOutOfBounds
  else .error .assertionFailed

/-- Embeds `FixedSubLockScript::generate_constraints`
(`src/bitcoin_predicates/fixed_sub_lock_script.rs`): assert
`index <= outputs.len()` (non-strict); the second `assert!` evaluates
`outputs[index].lock_script.0.len()` (an out-of-bounds panic when
`index = outputs.len()`) and checks `end <= ` that length; the slice
`[start..end]` panics when `start > end`; finally return the boolean of `is_eq`
between the byte range and the constant target script. -/
def FixedSubLockScript.generate_constraints (lock_script : List Nat)
    (index start stop : Nat) (tx : TxData) : Except PanicKind Bool :=
  if index ≤ tx.outputs.length then
    match tx.outputs.get? index with
    | some out =>
      if stop ≤ out.lockScript.length then
        if start ≤ stop then
          .ok ((out.lockScript.drop start).take (stop - start) == lock_script)
        else .error .indexOutOfBounds
      else .error .assertionFailed
    | none => .error .indexOutOfBounds
  else .error .assertionFailed

/-! ## Concrete instances used to evaluate the definitions -/

/-- The prime field with modulus 97 (modulus bit size 7). -/
def F97 : FieldParams := ⟨97, 7, by decide, by decide, by decide⟩

/-- The prime field with modulus 251 (modulus bit size 8: the largest prime
below 2^8). -/
def F251 : FieldParams := ⟨251, 8, by decide, by decide, by decide⟩

/-- The prime field with modulus 1009 (modulus bit size 10). -/
def F1009 : FieldParams := ⟨1009, 10, by decide, by decide, by decide⟩

/-- The scalar field of BLS12-381 (modulus bit size 255), the field used by
the crate's own tests. -/
def Fbls : FieldParams :=
  ⟨52435875175126190479447740508185965837690552500527637822603658699938581184513,
   255, by decide, by norm_num, by norm_num⟩

/-- A `TransactionIntegrityConfig` with an empty previous locking script,
input index 0 and flag `SIGHASH_ALL | SIGHASH_FORKID`. -/
def cfg0 : TIConfig := ⟨0, 0, 0x41⟩

/-- A `TransactionIntegrityConfig` expecting a previous locking script of
length 5. -/
def cfg5 : TIConfig := ⟨5, 0, 0x41⟩

/-- A sighash collaborator returning the all-zero digest. -/
def zeroSighash : SighashFn := fun _ _ _ _ _ => List.replicate 32 0

/-- A transaction with no inputs and no outputs. -/
def txEmpty : TxData := ⟨0, [], [], 0⟩

/-- A transaction with a single output whose locking script is the one-byte
script `[0]`. -/
def txOneOut : TxData := ⟨0, [], [⟨0, [0]⟩], 0⟩

/-- A tag that differs from the all-zero tag in the bits of its first byte
(251 = 0b11111011), yet is congruent to 0 modulo 251. -/
def tagFlip : List Nat := 251 :: List.replicate 31 0

/-- A cache with a populated previous-outputs slot. -/
def cacheB : CacheData := ⟨some (List.replicate 32 1), none, none⟩

/-- A predicate whose data contributes nothing, mirroring `BitcoinUnit`
(`src/bitcoin_predicates/data_structures/unit.rs`): empty `Vec<F>` conversion
and no allocated variables. -/
def unitSlots : PredicateSlots := ⟨[], [], [], [], []⟩

/-- A sub-predicate reading the first component of a pair of booleans;
constant shape, no enforced constraints. -/
def subFst : SubPredicate Unit (Bool × Bool) :=
  { val := fun _ a => a.1
    constraintCount := fun _ _ => 3
    wireCount := fun _ _ => 2
    enforced := fun _ _ => [] }

/-- A sub-predicate reading the second component of a pair of booleans. -/
def subSnd : SubPredicate Unit (Bool × Bool) :=
  { val := fun _ a => a.2
    constraintCount := fun _ _ => 5
    wireCount := fun _ _ => 4
    enforced := fun _ _ => [] }

/-- A two-element combination, as in the AND/OR tests of `src/macros.rs`. -/
def demoSubs : List (SubPredicate Unit (Bool × Bool)) := [subFst, subSnd]

/-! ## Helper lemmas on byte encodings -/

theorem leBytesToNat_cons (b : Nat) (l : List Nat) :
    leBytesToNat (b :: l) = b + 256 * leBytesToNat l := rfl

theorem leBytesToNat_lt (l : List Nat) (hl : BytesWF l) :
    leBytesToNat l < 256 ^ l.length := by
  induction l with
  | nil => simp [leBytesToNat]
  | cons b t ih =>
    have hb : b < 256 := hl b (List.mem_cons_self b t)
    have ht : BytesWF t := fun x hx => hl x (List.mem_cons_of_mem b hx)
    have h1 : leBytesToNat t < 256 ^ t.length := ih ht
    calc leBytesToNat (b :: t) = b + 256 * leBytesToNat t := leBytesToNat_cons b t
      _ < 256 + 256 * leBytesToNat t := by omega
      _ = 256 * (leBytesToNat t + 1) := by ring
      _ ≤ 256 * 256 ^ t.length := by
          exact Nat.mul_le_mul_left 256 (by omega)
      _ = 256 ^ (b :: t).length := by
          rw [List.length_cons, pow_succ, Nat.mul_comm]

theorem natLeBytes_leBytesToNat (l : List Nat) (hl : BytesWF l) :
    natLeBytes l.length (leBytesToNat l) = l := by
  induction l with
  | nil => rfl
  | cons b t ih =>
    have hb : b < 256 := hl b (List.mem_cons_self b t)
    have ht : BytesWF t := fun x hx => hl x (List.mem_cons_of_mem b hx)
    have h1 : (b + 256 * leBytesToNat t) % 256 = b := by omega
    have h2 : (b + 256 * leBytesToNat t) / 256 = leBytesToNat t := by omega
    simp only [List.length_cons, natLeBytes, leBytesToNat_cons, h1, h2, ih ht]

theorem pow256_eq_pow2 (c : Nat) : 256 ^ c = 2 ^ (8 * c) := by
  rw [pow_mul]
  norm_num

/-! ## Helper lemmas on `chunksExact` -/

theorem chunksExactAux_join (c : Nat) (hc : 0 < c) :
    ∀ fuel l, l.length ≤ fuel → c ∣ l.length →
      (chunksExactAux c fuel l).flatten = l := by
  intro fuel
  induction fuel with
  | zero =>
    intro l hl _
    have : l = [] := List.eq_nil_of_length_eq_zero (by omega)
    subst this; rfl
  | succ n ih =>
    intro l hl hd
    by_cases hcl : c ≤ l.length
    · have hrec := ih (l.drop c)
        (by rw [List.length_drop]; omega)
        (by rw [List.length_drop]; exact (Nat.dvd_sub' hd dvd_rfl))
      simp only [chunksExactAux, if_pos (And.intro hc hcl), List.flatten_cons, hrec]
      exact List.take_append_drop c l
    · have hnil : l = [] := List.eq_nil_of_length_eq_zero
        (Nat.eq_zero_of_dvd_of_lt hd (by omega))
      subst hnil
      simp only [chunksExactAux]
      rw [if_neg (by simp; omega)]
      rfl

theorem chunksExactAux_mem (c : Nat) :
    ∀ fuel l ch, ch ∈ chunksExactAux c fuel l →
      ch.length = c ∧ ∀ b ∈ ch, b ∈ l := by
  intro fuel
  induction fuel with
  | zero => intro l ch h; simp [chunksExactAux] at h
  | succ n ih =>
    intro l ch h
    by_cases hcl : 0 < c ∧ c ≤ l.length
    · simp only [chunksExactAux, if_pos hcl, List.mem_cons] at h
      rcases h with h | h
      · subst h
        refine ⟨by rw [List.length_take]; omega, ?_⟩
        intro b hb
        exact List.take_subset c l hb
      · rcases ih (l.drop c) ch h with ⟨hlen, hmem⟩
        exact ⟨hlen, fun b hb => List.drop_subset c l (hmem b hb)⟩
    · simp [chunksExactAux, if_neg hcl] at h

theorem chunksExactAux_length (c : Nat) (hc : 0 < c) :
    ∀ fuel l, l.length ≤ fuel → c ∣ l.length →
      (chunksExactAux c fuel l).length * c = l.length := by
  intro fuel
  induction fuel with
  | zero =>
    intro l hl _
    have : l = [] := List.eq_nil_of_length_eq_zero (by omega)
    subst this
    simp [chunksExactAux]
  | succ n ih =>
    intro l hl hd
    by_cases hcl : c ≤ l.length
    · have hrec := ih (l.drop c)
        (by rw [List.length_drop]; omega)
        (by rw [List.length_drop]; exact (Nat.dvd_sub' hd dvd_rfl))
      simp only [chunksExactAux, if_pos (And.intro hc hcl), List.length_cons]
      rw [Nat.succ_mul]
      rw [List.length_drop] at hrec
      omega
    · have hnil : l = [] := List.eq_nil_of_length_eq_zero
        (Nat.eq_zero_of_dvd_of_lt hd (by omega))
      subst hnil
      simp only [chunksExactAux]
      rw [if_neg (by simp; omega)]
      simp

theorem chunksExact_join (c : Nat) (hc : 0 < c) (l : List Nat)
    (hd : c ∣ l.length) : (chunksExact c l).flatten = l :=
  chunksExactAux_join c hc l.length l le_rfl hd

theorem chunksExact_mem (c : Nat) (l ch : List Nat)
    (h : ch ∈ chunksExact c l) : ch.length = c ∧ ∀ b ∈ ch, b ∈ l :=
  chunksExactAux_mem c l.length l ch h

theorem chunksExact_length_mul (c : Nat) (hc : 0 < c) (l : List Nat)
    (hd : c ∣ l.length) : (chunksExact c l).length * c = l.length :=
  chunksExactAux_length c hc l.length l le_rfl hd

theorem chunksExact_inj (c : Nat) (hc : 0 < c) (l₁ l₂ : List Nat)
    (h₁ : c ∣ l₁.length) (h₂ : c ∣ l₂.length)
    (h : chunksExact c l₁ = chunksExact c l₂) : l₁ = l₂ := by
  have := chunksExact_join c hc l₁ h₁
  rw [h, chunksExact_join c hc l₂ h₂] at this
  exact this.symm

/-! ## Helper lemmas on `get_chunk_size` -/

theorem get_chunk_size_pos (fp : FieldParams) : 0 < get_chunk_size fp := by
  unfold get_chunk_size
  split_ifs <;> norm_num

theorem get_chunk_size_dvd (fp : FieldParams) : get_chunk_size fp ∣ 32 := by
  unfold get_chunk_size
  split_ifs <;> norm_num

theorem get_chunk_size_bits_lt (fp : FieldParams) (h : 8 < fp.bitSize) :
    8 * get_chunk_size fp < fp.bitSize := by
  unfold get_chunk_size
  split_ifs <;> omega

theorem two_pow_chunk_le (fp : FieldParams) (h : 8 < fp.bitSize) :
    256 ^ get_chunk_size fp ≤ fp.p := by
  rw [pow256_eq_pow2]
  calc 2 ^ (8 * get_chunk_size fp) ≤ 2 ^ (fp.bitSize - 1) := by
        apply Nat.pow_le_pow_right (by norm_num)
        have := get_chunk_size_bits_lt fp h
        omega
    _ ≤ fp.p := fp.lower

/-! ## Helper lemmas on the tag chunking roundtrip -/

/-- On a field whose modulus bit size exceeds 8, allocating a well-formed
32-byte tag and reading the allocated field elements back through
`TransactionIntegrityTagVar::to_bytes` recovers exactly the `chunks_exact`
chunks of the tag. -/
theorem tagVar_to_bytes_alloc (fp : FieldParams) (hbits : 8 < fp.bitSize)
    (tag : List Nat) (htag : BytesWF tag) :
    tagVar_to_bytes fp (tagVar_alloc fp tag)
      = chunksExact (get_chunk_size fp) tag := by
  unfold tagVar_to_bytes tagVar_alloc to_fp_chunks
  rw [List.map_map]
  have h : ∀ ch ∈ chunksExact (get_chunk_size fp) tag,
      (natLeBytes (get_chunk_size fp) ∘ from_le_bytes_mod_order fp) ch = id ch := by
    intro ch hch
    rcases chunksExact_mem (get_chunk_size fp) tag ch hch with ⟨hlen, hmem⟩
    have hwf : BytesWF ch := fun b hb => htag b (hmem b hb)
    have hlt : leBytesToNat ch < 256 ^ get_chunk_size fp := by
      have := leBytesToNat_lt ch hwf
      rwa [hlen] at this
    have hltp : leBytesToNat ch < fp.p :=
      lt_of_lt_of_le hlt (two_pow_chunk_le fp hbits)
    simp only [Function.comp_apply, from_le_bytes_mod_order, id_eq,
      Nat.mod_eq_of_lt hltp]
    rw [← hlen]
    exact natLeBytes_leBytesToNat ch hwf
  rw [List.map_congr_left h, List.map_id]

/-- The booleans of the chunk-wise comparison are all true exactly when the
two chunk lists are equal, provided they have the same length. -/
theorem zip_beq_all_iff :
    ∀ (x y : List (List Nat)), x.length = y.length →
      ((((x.zip y).map (fun pair => pair.1 == pair.2)).all id = true) ↔ x = y) := by
  intro x
  induction x with
  | nil =>
    intro y hy
    have : y = [] := List.eq_nil_of_length_eq_zero hy.symm
    subst this
    simp
  | cons a t ih =>
    intro y hy
    cases y with
    | nil => simp at hy
    | cons b u =>
      simp only [List.length_cons] at hy
      have := ih u (by omega)
      simp only [List.zip_cons_cons, List.map_cons, List.all_cons, id_eq,
        Bool.and_eq_true, beq_iff_eq, this, List.cons.injEq]

/-- The central evaluation of the integrity circuit: on a field of modulus bit
size at least 9, for a well-formed 32-byte tag and a 32-byte digest, the
circuit is satisfied exactly when the tag equals the digest. -/
theorem ti_circuit_satisfied_iff (fp : FieldParams) (cfg : TIConfig)
    (h : SighashFn) (tx : TxData) (script : List Nat) (amount : Nat)
    (cache : CacheData) (tag : List Nat)
    (hbits : 8 < fp.bitSize)
    (hlen : script.length = cfg.LEN_PREV_LOCK_SCRIPT)
    (hdig : Digest32 (h tx cfg.N_INPUT script amount cfg.SIGHASH_FLAG))
    (htag : Digest32 tag) :
    ti_circuit_satisfied fp cfg h tx script amount cache tag
      = some (tag == h tx cfg.N_INPUT script amount cfg.SIGHASH_FLAG) := by
  unfold ti_circuit_satisfied TransactionIntegrityGadget.verify
  rw [if_pos hlen]
  rcases hdig with ⟨hdlen, hdwf⟩
  rcases htag with ⟨htlen, htwf⟩
  have hc : 0 < get_chunk_size fp := get_chunk_size_pos fp
  have hdvd : get_chunk_size fp ∣ 32 := get_chunk_size_dvd fp
  rw [tagVar_to_bytes_alloc fp hbits tag htwf]
  have hll : (chunksExact (get_chunk_size fp) tag).length
      = (chunksExact (get_chunk_size fp)
          (h tx cfg.N_INPUT script amount cfg.SIGHASH_FLAG)).length := by
    have h1 := chunksExact_length_mul (get_chunk_size fp) hc tag
      (by rw [htlen]; exact hdvd)
    have h2 := chunksExact_length_mul (get_chunk_size fp) hc
      (h tx cfg.N_INPUT script amount cfg.SIGHASH_FLAG)
      (by rw [hdlen]; exact hdvd)
    rw [htlen] at h1
    rw [hdlen] at h2
    exact Nat.eq_of_mul_eq_mul_right hc (by omega)
  have hiff := zip_beq_all_iff
    (chunksExact (get_chunk_size fp) tag)
    (chunksExact (get_chunk_size fp)
      (h tx cfg.N_INPUT script amount cfg.SIGHASH_FLAG)) hll
  have hmain : ((( (chunksExact (get_chunk_size fp) tag).zip
      (chunksExact (get_chunk_size fp)
        (h tx cfg.N_INPUT script amount cfg.SIGHASH_FLAG))).map
      (fun pair => pair.1 == pair.2)).all id)
      = (tag == h tx cfg.N_INPUT script amount cfg.SIGHASH_FLAG) := by
    by_cases heq : tag = h tx cfg.N_INPUT script amount cfg.SIGHASH_FLAG
    · rw [hiff.mpr (by rw [heq])]
      simp [heq]
    · have hne : chunksExact (get_chunk_size fp) tag
          ≠ chunksExact (get_chunk_size fp)
              (h tx cfg.N_INPUT script amount cfg.SIGHASH_FLAG) := by
        intro hcc
        exact heq (chunksExact_inj (get_chunk_size fp) hc _ _
          (by rw [htlen]; exact hdvd) (by rw [hdlen]; exact hdvd) hcc)
      have h1 : ((( (chunksExact (get_chunk_size fp) tag).zip
          (chunksExact (get_chunk_size fp)
            (h tx cfg.N_INPUT script amount cfg.SIGHASH_FLAG))).map
          (fun pair => pair.1 == pair.2)).all id) = false := by
        rw [← Bool.not_eq_true]
        intro hall
        exact hne (hiff.mp hall)
      rw [h1]
      simp [heq]
  exact congrArg some hmain

/-! ## Claim C1 -/

/-- C1: code bug.  `RefTxCircuit::public_input()` does NOT reproduce the
sequence of field elements assigned to public inputs during
`generate_constraints`.  Evaluated on the BLS12-381 scalar field used by the
crate's own tests, with `BitcoinUnit` locking/unlocking data and the defaulted
tag (defaulted identically on both sides): `public_input()` encodes the tag as
one field element via `From<TransactionIntegrityTag> for Vec<F>`, while
synthesis allocates it as `32 / get_chunk_size = 2` field elements via
`to_fp_chunks`, so the two sequences differ. -/
theorem C1_public_input_divergence :
    RefTxCircuit.public_input Fbls unitSlots none
      ≠ RefTxCircuit.allocated_public_input Fbls unitSlots none := by
  decide

/-! ## Claim C2 -/

/-- C2: counterexample to the claim as stated.  Over the prime field with
modulus 251 (modulus bit size 8), with a previous locking script of the
configured length: the committed tag is the all-zero digest, and the tag
`251 :: 0^31` differs from it in several bits of its first byte, yet the
integrity circuit on that wrong tag is satisfied, because allocating the byte
251 reduces it to `251 % 251 = 0`.  The claim demands unsatisfiability. -/
theorem C2_counterexample :
    TransactionIntegrityScheme.commit cfg0 zeroSighash txEmpty [] 0 emptyCache
        = some default_tag
    ∧ tagFlip ≠ default_tag
    ∧ ti_circuit_satisfied F251 cfg0 zeroSighash txEmpty [] 0 emptyCache
        tagFlip = some true := by
  refine ⟨by decide, by decide, by decide⟩

/-- C2 as amended: on every prime field whose modulus bit size is at least 9
(which includes every field for which `get_chunk_size`'s strict bit-width
bound holds, and in particular the 255-bit and 381-bit fields of the crate's
tests), for every transaction, previous locking script of the configured
length and previous amount: the tag produced by
`TransactionIntegrityScheme::commit` is accepted by the in-circuit verifier
(the constraint system is satisfied), and every well-formed 32-byte tag that
differs from the committed tag in at least one bit makes the constraint
system unsatisfiable.  The digest collaborator is assumed to produce
well-formed 32-byte digests. -/
theorem C2_gadget_scheme_equivalence (fp : FieldParams) (cfg : TIConfig)
    (h : SighashFn) (tx : TxData) (script : List Nat) (amount : Nat)
    (cache cache' : CacheData) (tag' : List Nat)
    (hbits : 8 < fp.bitSize)
    (hlen : script.length = cfg.LEN_PREV_LOCK_SCRIPT)
    (hdig : Digest32 (h tx cfg.N_INPUT script amount cfg.SIGHASH_FLAG))
    (htag' : Digest32 tag') :
    (∀ tag,
      TransactionIntegrityScheme.commit cfg h tx script amount cache = some tag →
      ti_circuit_satisfied fp cfg h tx script amount cache' tag = some true)
    ∧ (tag' ≠ h tx cfg.N_INPUT script amount cfg.SIGHASH_FLAG →
      ti_circuit_satisfied fp cfg h tx script amount cache' tag' = some false) := by
  constructor
  · intro tag htag
    unfold TransactionIntegrityScheme.commit at htag
    rw [if_pos hlen] at htag
    have heq : tag = h tx cfg.N_INPUT script amount cfg.SIGHASH_FLAG :=
      (Option.some.injEq _ _ ▸ htag).symm
    rw [ti_circuit_satisfied_iff fp cfg h tx script amount cache' tag hbits hlen
      hdig (heq ▸ hdig)]
    rw [heq]
    simp
  · intro hne
    rw [ti_circuit_satisfied_iff fp cfg h tx script amount cache' tag' hbits hlen
      hdig htag']
    simp [hne]

/-- C2 witness: the amended equivalence applied over the field with modulus
1009 (bit size 10), the all-zero digest, an empty previous locking script and
the wrong tag `1 :: 0^31`. -/
theorem C2_gadget_scheme_equivalence_witness :
    (8 < F1009.bitSize
      ∧ ([] : List Nat).length = cfg0.LEN_PREV_LOCK_SCRIPT
      ∧ Digest32 (zeroSighash txEmpty cfg0.N_INPUT [] 0 cfg0.SIGHASH_FLAG)
      ∧ Digest32 (1 :: List.replicate 31 0))
    ∧ ti_circuit_satisfied F1009 cfg0 zeroSighash txEmpty [] 0 emptyCache
        default_tag = some true
    ∧ ti_circuit_satisfied F1009 cfg0 zeroSighash txEmpty [] 0 emptyCache
        (1 :: List.replicate 31 0) = some false := by
  refine ⟨⟨by decide, by decide, by decide, by decide⟩, ?_, ?_⟩
  · exact (C2_gadget_scheme_equivalence F1009 cfg0 zeroSighash txEmpty [] 0
      emptyCache emptyCache (1 :: List.replicate 31 0) (by decide) (by decide)
      (by decide) (by decide)).1 default_tag (by decide)
  · exact (C2_gadget_scheme_equivalence F1009 cfg0 zeroSighash txEmpty [] 0
      emptyCache emptyCache (1 :: List.replicate 31 0) (by decide) (by decide)
      (by decide) (by decide)).2 (by decide)

/-! ## Claim C3 -/

/-- C3: counterexample to the claim as stated.  Over the prime field with
modulus 251 the modulus bit size is 8, and no byte count in {32,16,8,4,2,1}
has bit-width strictly below 8, yet `get_chunk_size` returns 1. -/
theorem C3_counterexample :
    chunk_size_spec F251.bitSize ≠ some (get_chunk_size F251) := by
  decide

/-- C3 as amended: for every prime field whose modulus bit size is at least 9,
`get_chunk_size` returns the largest power-of-two byte count from
{32,16,8,4,2,1} whose bit-width is strictly less than the modulus bit size
(for smaller moduli no such count exists and the code falls back to 1); in
particular it returns 16 at modulus bit size 255 and 32 above 256. -/
theorem C3_chunk_size (fp : FieldParams) (hbits : 8 < fp.bitSize) :
    chunk_size_spec fp.bitSize = some (get_chunk_size fp)
    ∧ (fp.bitSize = 255 → get_chunk_size fp = 16)
    ∧ (256 < fp.bitSize → get_chunk_size fp = 32) := by
  refine ⟨?_, ?_, ?_⟩
  · unfold chunk_size_spec get_chunk_size
    by_cases h32 : 8 * 32 < fp.bitSize
    · rw [List.find?_cons_of_pos _ (by simpa using h32), if_pos (by omega)]
    · rw [List.find?_cons_of_neg _ (by simpa using h32), if_neg (by omega)]
      by_cases h16 : 8 * 16 < fp.bitSize
      · rw [List.find?_cons_of_pos _ (by simpa using h16), if_pos (by omega)]
      · rw [List.find?_cons_of_neg _ (by simpa using h16), if_neg (by omega)]
        by_cases h8 : 8 * 8 < fp.bitSize
        · rw [List.find?_cons_of_pos _ (by simpa using h8), if_pos (by omega)]
        · rw [List.find?_cons_of_neg _ (by simpa using h8), if_neg (by omega)]
          by_cases h4 : 8 * 4 < fp.bitSize
          · rw [List.find?_cons_of_pos _ (by simpa using h4), if_pos (by omega)]
          · rw [List.find?_cons_of_neg _ (by simpa using h4), if_neg (by omega)]
            by_cases h2 : 8 * 2 < fp.bitSize
            · rw [List.find?_cons_of_pos _ (by simpa using h2),
                if_pos (by omega)]
            · rw [List.find?_cons_of_neg _ (by simpa using h2),
                if_neg (by omega)]
              rw [List.find?_cons_of_pos _ (by simpa using hbits)]
  · intro h255
    unfold get_chunk_size
    rw [if_neg (by omega), if_pos (by omega)]
  · intro h256
    unfold get_chunk_size
    rw [if_pos (by omega)]

/-- C3 witness: the amended statement applied to the 255-bit BLS12-381 scalar
field: the spec-side choice and `get_chunk_size` agree, and the chunk size is
16 bytes. -/
theorem C3_chunk_size_witness :
    (8 < Fbls.bitSize)
    ∧ chunk_size_spec Fbls.bitSize = some (get_chunk_size Fbls)
    ∧ get_chunk_size Fbls = 16 :=
  ⟨by decide, (C3_chunk_size Fbls (by decide)).1,
    (C3_chunk_size Fbls (by decide)).2.1 (by decide)⟩

/-! ## Claim C4 -/

/-- C4: for every list of sub-predicates obeying the `BitcoinPredicate`
contract (their `generate_constraints` enforce nothing), the combined
predicate's `enforce_constraints` leaves a satisfied constraint system iff
every sub-predicate's boolean is true in AND mode, and iff at least one is in
OR mode. -/
theorem C4_and_or_truth_tables (subs : List (SubPredicate τ α)) (t : τ) (a : α)
    (hempty : ∀ s ∈ subs, s.enforced t a = []) :
    (combined_enforce_satisfied true subs t a = true
      ↔ ∀ s ∈ subs, s.val t a = true)
    ∧ (combined_enforce_satisfied false subs t a = true
      ↔ ∃ s ∈ subs, s.val t a = true) := by
  have hE : (subs.map (fun s => (s.enforced t a).all id)).all id = true := by
    rw [List.all_eq_true]
    intro b hb
    rcases List.mem_map.mp hb with ⟨s, hs, rfl⟩
    rw [hempty s hs]
    rfl
  unfold combined_enforce_satisfied combined_generate_val
    combined_generate_bools
  rw [hE]
  constructor
  · simp [List.all_eq_true]
  · simp [List.any_eq_true]

/-- C4 witness: the truth-table equivalence evaluated on the two-predicate
combination at the assignment where the first holds and the second fails. -/
theorem C4_and_or_truth_tables_witness :
    (∀ s ∈ demoSubs, s.enforced () (true, false) = [])
    ∧ (combined_enforce_satisfied true demoSubs () (true, false) = true
        ↔ ∀ s ∈ demoSubs, s.val () (true, false) = true)
    ∧ (combined_enforce_satisfied false demoSubs () (true, false) = true
        ↔ ∃ s ∈ demoSubs, s.val () (true, false) = true) :=
  ⟨by decide, (C4_and_or_truth_tables demoSubs () (true, false) (by decide)).1,
    (C4_and_or_truth_tables demoSubs () (true, false) (by decide)).2⟩

/-! ## Claim C5 -/

/-- C5: the combined `generate_constraints` evaluates every sub-predicate's
`generate_constraints`, in declaration order, against the same allocated
transaction (the collected boolean list is index-for-index the list of
sub-predicate booleans at the shared transaction) — this holds in both modes,
since `combined_generate_bools` is what `kary_and` and `kary_or` both fold —
and for any two data assignments under which each sub-predicate keeps its
shape (the contract of spec section 4.1), the combined predicate allocates the
same number of constraints and wires. -/
theorem C5_full_invocation_shape_invariance (subs : List (SubPredicate τ α))
    (t : τ) (a₁ a₂ : α)
    (hc : ∀ s ∈ subs, s.constraintCount t a₁ = s.constraintCount t a₂)
    (hw : ∀ s ∈ subs, s.wireCount t a₁ = s.wireCount t a₂) :
    (∀ i, (combined_generate_bools subs t a₁).get? i
        = (subs.get? i).map (fun s => s.val t a₁))
    ∧ (combined_generate_bools subs t a₁).length = subs.length
    ∧ combined_constraint_count subs t a₁ = combined_constraint_count subs t a₂
    ∧ combined_wire_count subs t a₁ = combined_wire_count subs t a₂ := by
  refine ⟨?_, ?_, ?_, ?_⟩
  · intro i
    simp [combined_generate_bools, List.get?_map]
  · simp [combined_generate_bools]
  · unfold combined_constraint_count
    rw [List.map_congr_left hc]
  · unfold combined_wire_count
    rw [List.map_congr_left hw]

/-- C5 witness: on the two-predicate combination, two assignments satisfying
different branches produce the same constraint and wire counts, and both
sub-predicate booleans are collected. -/
theorem C5_full_invocation_shape_invariance_witness :
    ((∀ s ∈ demoSubs,
        s.constraintCount () (true, false) = s.constraintCount () (false, true))
      ∧ (∀ s ∈ demoSubs,
        s.wireCount () (true, false) = s.wireCount () (false, true)))
    ∧ (combined_generate_bools demoSubs () (true, false)).length
        = demoSubs.length
    ∧ combined_constraint_count demoSubs () (true, false)
        = combined_constraint_count demoSubs () (false, true) :=
  ⟨⟨by decide, by decide⟩,
    (C5_full_invocation_shape_invariance demoSubs () (true, false) (false, true)
      (by decide) (by decide)).2.1,
    (C5_full_invocation_shape_invariance demoSubs () (true, false) (false, true)
      (by decide) (by decide)).2.2.1⟩

/-! ## Claim C6 -/

/-- C6: `TransactionIntegrityScheme::commit` is a pure function of the
transaction, previous locking script, previous amount and the configuration's
input index and sighash flag: its result is independent of the sighash cache's
pre-state (and of the configuration beyond those bound fields), and native
`verify` applied to the tag returned by `commit` on the same bound values, with
any cache, returns true. -/
theorem C6_commit_determinism (cfg cfgB : TIConfig) (h : SighashFn)
    (tx : TxData) (script : List Nat) (amount : Nat) (c₁ c₂ : CacheData)
    (hN : cfgB.N_INPUT = cfg.N_INPUT)
    (hF : cfgB.SIGHASH_FLAG = cfg.SIGHASH_FLAG)
    (hL : cfgB.LEN_PREV_LOCK_SCRIPT = cfg.LEN_PREV_LOCK_SCRIPT) :
    TransactionIntegrityScheme.commit cfg h tx script amount c₁
      = TransactionIntegrityScheme.commit cfgB h tx script amount c₂
    ∧ ∀ tag,
        TransactionIntegrityScheme.commit cfg h tx script amount c₁ = some tag →
        TransactionIntegrityScheme.verify cfg h tx script amount c₂ tag
          = some true := by
  constructor
  · unfold TransactionIntegrityScheme.commit
    rw [hN, hF, hL]
  · intro tag htag
    have h₂ : TransactionIntegrityScheme.commit cfg h tx script amount c₂
        = some tag := htag
    unfold TransactionIntegrityScheme.verify
    rw [h₂]
    simp

/-- C6 witness: the determinism and verify-of-commit conclusions evaluated
with an empty cache against a cache with a populated previous-outputs slot. -/
theorem C6_commit_determinism_witness :
    TransactionIntegrityScheme.commit cfg0 zeroSighash txEmpty [] 0 emptyCache
      = TransactionIntegrityScheme.commit cfg0 zeroSighash txEmpty [] 0 cacheB
    ∧ TransactionIntegrityScheme.verify cfg0 zeroSighash txEmpty [] 0 cacheB
        default_tag = some true :=
  ⟨(C6_commit_determinism cfg0 cfg0 zeroSighash txEmpty [] 0 emptyCache cacheB
      rfl rfl rfl).1,
    (C6_commit_determinism cfg0 cfg0 zeroSighash txEmpty [] 0 emptyCache cacheB
      rfl rfl rfl).2 default_tag (by decide)⟩

/-! ## Claim C7 -/

/-- C7: the `From<$combined_struct> for Vec<F>` conversion generated by
`combine_bp_structs` equals the concatenation of each slot's own `Vec<F>`
conversion, in declaration order of the sub-predicates. -/
theorem C7_combined_vec_concatenation (slots : List (List Nat)) :
    combined_into_vecF slots = slots.flatten := by
  have key : ∀ (l : List (List Nat)) (acc : List Nat),
      l.foldl (fun out slot => out ++ slot) acc = acc ++ l.flatten := by
    intro l
    induction l with
    | nil => intro acc; simp
    | cons s rest ih =>
      intro acc
      simp only [List.foldl_cons, List.flatten_cons, ih, List.append_assoc]
  unfold combined_into_vecF
  rw [key slots []]
  simp

/-! ## Claim C8 -/

/-- C8: when the previous locking script's length differs from the configured
`LEN_PREV_LOCK_SCRIPT`, both the native `commit` and the in-circuit gadget
`verify` abort at their leading `assert_eq!`, unconditionally and
independently of the digest function, transaction, amount, cache and tag
supplied — in particular before any sighash is computed (the result does not
depend on the digest function) and before any constraint is emitted. -/
theorem C8_length_mismatch_aborts (fp : FieldParams) (cfg : TIConfig)
    (h hB : SighashFn) (tx txB : TxData) (script : List Nat)
    (amount amountB : Nat) (cache cacheB' : CacheData) (tagVals : List Nat)
    (hbad : script.length ≠ cfg.LEN_PREV_LOCK_SCRIPT) :
    TransactionIntegrityScheme.commit cfg h tx script amount cache = none
    ∧ TransactionIntegrityGadget.verify fp cfg hB txB script amountB cacheB'
        tagVals = none := by
  constructor
  · unfold TransactionIntegrityScheme.commit
    rw [if_neg hbad]
  · unfold TransactionIntegrityGadget.verify
    rw [if_neg hbad]

/-- C8 witness: a configuration expecting a 5-byte previous locking script,
given an empty script: both sides abort, whatever the other arguments. -/
theorem C8_length_mismatch_aborts_witness :
    (([] : List Nat).length ≠ cfg5.LEN_PREV_LOCK_SCRIPT)
    ∧ TransactionIntegrityScheme.commit cfg5 zeroSighash txEmpty [] 0 emptyCache
        = none
    ∧ TransactionIntegrityGadget.verify F97 cfg5 zeroSighash txOneOut [] 7
        cacheB [] = none :=
  ⟨by decide,
    (C8_length_mismatch_aborts F97 cfg5 zeroSighash zeroSighash txEmpty txOneOut
      [] 0 7 emptyCache cacheB [] (by decide)).1,
    (C8_length_mismatch_aborts F97 cfg5 zeroSighash zeroSighash txEmpty txOneOut
      [] 0 7 emptyCache cacheB [] (by decide)).2⟩

/-! ## Claim C9 -/

/-- C9: when any optional input of `RefTxCircuit` is `None`,
`generate_constraints` substitutes the documented default — the all-zero tag,
the zero-shaped transaction of the configuration, the zero-filled previous
locking script of the configured length, amount 0 and the empty cache — so the
allocation trace with all options absent equals the trace with the explicit
defaults; and whatever the options, the locking data, integrity tag and
unlocking data are the only public-input allocations, while witness,
transaction, previous locking script, previous amount and cache are allocated
as private witnesses. -/
theorem C9_optional_defaults_private_witnesses (fp : FieldParams)
    (cfg : TxVarConfig) (ticfg : TIConfig)
    (txAlloc : TxData → List Nat) (scriptAlloc : List Nat → List Nat)
    (amountAlloc : Nat → List Nat) (cacheAlloc : CacheData → List Nat)
    (d : PredicateSlots) :
    RefTxCircuit.generate_constraints_allocs fp cfg ticfg txAlloc scriptAlloc
        amountAlloc cacheAlloc d none none none none none
      = RefTxCircuit.generate_constraints_allocs fp cfg ticfg txAlloc
          scriptAlloc amountAlloc cacheAlloc d (some default_tag)
          (some (default_tx cfg))
          (some (List.replicate ticfg.LEN_PREV_LOCK_SCRIPT 0)) (some 0)
          (some emptyCache)
    ∧ ∀ otag otx oscript oamount ocache,
        (∀ al ∈ (RefTxCircuit.generate_constraints_allocs fp cfg ticfg txAlloc
            scriptAlloc amountAlloc cacheAlloc d otag otx oscript oamount
            ocache).take 3, al.mode = Mode.input)
        ∧ (∀ al ∈ (RefTxCircuit.generate_constraints_allocs fp cfg ticfg
            txAlloc scriptAlloc amountAlloc cacheAlloc d otag otx oscript
            oamount ocache).drop 3, al.mode = Mode.witness) := by
  refine ⟨rfl, ?_⟩
  intro otag otx oscript oamount ocache
  constructor
  · intro al hal
    simp only [RefTxCircuit.generate_constraints_allocs, List.take,
      List.mem_cons, List.not_mem_nil, or_false] at hal
    rcases hal with rfl | rfl | rfl <;> rfl
  · intro al hal
    simp only [RefTxCircuit.generate_constraints_allocs, List.drop,
      List.mem_cons, List.not_mem_nil, or_false] at hal
    rcases hal with rfl | rfl | rfl | rfl | rfl <;> rfl

/-! ## Claim C10 -/

/-- C10: counterexample to the claim as stated.  `txOneOut` has one output
whose locking script has length 1; with index 0 (strictly less than the number
of outputs) but byte range `[0..5)`, `FixedSubLockScript::generate_constraints`
does not return a boolean: its byte-range assertion aborts. -/
theorem C10_counterexample :
    0 < txOneOut.outputs.length
    ∧ FixedSubLockScript.generate_constraints [] 0 0 5 txOneOut
        = .error .assertionFailed :=
  ⟨by decide, rfl⟩

/-- C10 as amended: the output-index precondition of both predicates uses a
non-strict comparison.  An index strictly greater than the number of outputs
is rejected by the assertion itself; an index exactly equal to the number of
outputs passes the explicit configuration check and generation aborts only at
the subsequent out-of-bounds access to `outputs[index]`; for an index strictly
less than the number of outputs the index check passes, `FixedLockScript`
returns a boolean, and `FixedSubLockScript` returns a boolean provided its
byte range additionally satisfies `start ≤ end ≤ ` the output's script
length (otherwise its range assertion aborts, as the counterexample shows). -/
theorem C10_index_precondition (lock_script : List Nat)
    (index start stop : Nat) (tx : TxData) :
    (tx.outputs.length < index →
      FixedLockScript.generate_constraints lock_script index tx
          = .error .assertionFailed
      ∧ FixedSubLockScript.generate_constraints lock_script index start stop tx
          = .error .assertionFailed)
    ∧ (index = tx.outputs.length →
      FixedLockScript.generate_constraints lock_script index tx
          = .error .indexOutOfBounds
      ∧ FixedSubLockScript.generate_constraints lock_script index start stop tx
          = .error .indexOutOfBounds)
    ∧ (index < tx.outputs.length →
      (∃ b, FixedLockScript.generate_constraints lock_script index tx = .ok b)
      ∧ ∀ out, tx.outputs.get? index = some out → start ≤ stop →
          stop ≤ out.lockScript.length →
          ∃ b, FixedSubLockScript.generate_constraints lock_script index start
            stop tx = .ok b) := by
  refine ⟨?_, ?_, ?_⟩
  · intro hgt
    unfold FixedLockScript.generate_constraints
      FixedSubLockScript.generate_constraints
    rw [if_neg (by omega), if_neg (by omega)]
    exact ⟨rfl, rfl⟩
  · intro heq
    have hnone : tx.outputs.get? index = none :=
      List.get?_eq_none.mpr (by omega)
    unfold FixedLockScript.generate_constraints
      FixedSubLockScript.generate_constraints
    rw [if_pos (by omega), if_pos (by omega), hnone]
    exact ⟨rfl, rfl⟩
  · intro hlt
    have hsome : tx.outputs.get? index
        = some (tx.outputs.get ⟨index, hlt⟩) := List.get?_eq_get hlt
    constructor
    · refine ⟨(tx.outputs.get ⟨index, hlt⟩).lockScript == lock_script, ?_⟩
      unfold FixedLockScript.generate_constraints
      rw [if_pos (by omega), hsome]
    · intro out hout hse hsl
      refine ⟨(out.lockScript.drop start).take (stop - start) == lock_script, ?_⟩
      unfold FixedSubLockScript.generate_constraints
      rw [if_pos (by omega), hout]
      simp [hsl, hse]

/-- C10 witness: the three clauses of the amended statement evaluated on the
one-output transaction at indices 2, 1 and 0. -/
theorem C10_index_precondition_witness :
    (FixedLockScript.generate_constraints [] 2 txOneOut
        = .error .assertionFailed
      ∧ FixedSubLockScript.generate_constraints [] 2 0 0 txOneOut
        = .error .assertionFailed)
    ∧ (FixedLockScript.generate_constraints [] 1 txOneOut
        = .error .indexOutOfBounds
      ∧ FixedSubLockScript.generate_constraints [] 1 0 0 txOneOut
        = .error .indexOutOfBounds)
    ∧ (∃ b, FixedLockScript.generate_constraints [] 0 txOneOut = .ok b) :=
  ⟨(C10_index_precondition [] 2 0 0 txOneOut).1 (by decide),
    (C10_index_precondition [] 1 0 0 txOneOut).2.1 (by decide),
    ((C10_index_precondition [] 0 0 0 txOneOut).2.2 (by decide)).1⟩

end BitcoinR1cs
